import Mathlib

/-!
Verification development for the `yarn-spool` dialogue engine.

Shallow embedding of the two source files:
* `src/engine.rs` — the conversation execution engine (namespace `Engine`);
* `src/lib.rs`    — the lexer/parser (namespace `Lib`).

Modelling conventions:
* Rust `f32` is modelled by `ℚ`.  Every numeric value appearing in the
  concrete theorems below is a small integer, on which `f32` arithmetic and
  `ℚ` arithmetic agree exactly.
* Rust `HashMap` is modelled by an association list with insert-overwrite
  semantics (only `get`/`insert` are used by the source).
* Rust panics (`unwrap`, `expect`, `unreachable!`, out-of-bounds indexing)
  are modelled as distinguished error outcomes, kept separate from the
  `Result::Err` values the source can return.
* The `Iterator::next` pull loop of the engine is modelled with an explicit
  fuel parameter; `NextRes.outOfFuel` is a modelling artefact that never
  occurs for sufficient fuel and is not identified with any source outcome.
-/

namespace Engine

/-- `Value` from `src/engine.rs`: the dynamically typed runtime value.
`Number` holds an `f32` in the source, modelled as `ℚ`. -/
inductive Value where
  | String (s : String)
  | Number (q : ℚ)
  | Boolean (b : Bool)
deriving DecidableEq

/-- Display of an `f32` (Rust `f.to_string()`), modelled on `ℚ`.  On integral
values (denominator 1) this agrees exactly with Rust; non-integral values are
rendered as `num/den`, a stand-in never exercised by the claims. -/
def numToString (q : ℚ) : String :=
  if q.den = 1 then toString q.num else toString q.num ++ "/" ++ toString q.den

/-- `Value::as_string` from `src/engine.rs`. -/
def asString : Value → String
  | .Boolean b => if b then "true" else "false"
  | .String s => s
  | .Number q => numToString q

/-- `Value::as_bool` from `src/engine.rs`. -/
def asBool : Value → Bool
  | .Boolean b => b
  | .String s => !s.isEmpty
  | .Number q => q != 0

/-- `Value::as_num` from `src/engine.rs`: Boolean → 0/1, String → 0. -/
def asNum : Value → ℚ
  | .Boolean b => if b then 1 else 0
  | .String _ => 0
  | .Number q => q

/-- `impl PartialEq for Value` from `src/engine.rs`.  The match arms are in
source order; the first matching arm wins, exactly as in Rust. -/
def valueEq : Value → Value → Bool
  | .String s1, v => s1 == asString v
  | v, .String s2 => s2 == asString v
  | .Number q1, v => q1 == asNum v
  | v, .Number q2 => q2 == asNum v
  | .Boolean b1, .Boolean b2 => b1 == b2

/-- `impl Add for Value` from `src/engine.rs` (match arms in source order). -/
def valueAdd : Value → Value → Value
  | .String s1, v => .String (s1 ++ asString v)
  | v, .String s2 => .String (asString v ++ s2)
  | .Number q1, v => .Number (q1 + asNum v)
  | v, .Number q2 => .Number (asNum v + q2)
  | v1, v2 => .Number (asNum v1 + asNum v2)

/-- `impl Sub for Value` from `src/engine.rs`. -/
def valueSub (a b : Value) : Value := .Number (asNum a - asNum b)

/-- `impl Mul for Value` from `src/engine.rs`. -/
def valueMul (a b : Value) : Value := .Number (asNum a * asNum b)

/-- `impl Div for Value` from `src/engine.rs` (division by zero yields 0 in
`ℚ` where `f32` would give an infinity/NaN; no claim exercises that case). -/
def valueDiv (a b : Value) : Value := .Number (asNum a / asNum b)

/-- `UnaryOp` from `src/engine.rs`. -/
inductive UnaryOp where
  | Not
  | Negate
deriving DecidableEq

/-- `BinaryOp` from `src/engine.rs`. -/
inductive BinaryOp where
  | And | Or | Plus | Minus | Multiply | Divide
  | Equals | NotEquals
  | GreaterThan | LessThan | GreaterThanEqual | LessThanEqual
deriving DecidableEq

mutual
/-- `Expr` from `src/engine.rs` (`Box` indirections dropped). -/
inductive Expr where
  | Unary (op : UnaryOp) (e : Expr)
  | Binary (op : BinaryOp) (l r : Expr)
  | Term (t : Term)
  | Parentheses (e : Expr)

/-- `Term` from `src/engine.rs`.  `VariableName` is a string newtype in the
source and is modelled as `String`. -/
inductive Term where
  | Number (q : ℚ)
  | Boolean (b : Bool)
  | String (s : String)
  | Variable (n : String)
  | Function (name : String) (args : List Expr)
end

mutual
/-- `Step` from `src/engine.rs`.  `NodeName` is modelled as `String`. -/
inductive Step where
  | Dialogue (text : String) (choices : List Choice)
  | Command (text : String)
  | Assign (n : String) (e : Expr)
  | Conditional (cond : Expr) (ifSteps : List Step)
      (elseIfs : List (Expr × List Step)) (elseSteps : List Step)
  | Jump (n : String)

/-- `Choice` from `src/engine.rs` (a struct with a text and a kind). -/
inductive Choice where
  | mk (text : String) (kind : ChoiceKind)

/-- `ChoiceKind` from `src/engine.rs`. -/
inductive ChoiceKind where
  | External (n : String)
  | Inline (steps : List Step) (condition : Option Expr)
end

/-- Field accessor for `Choice.text`. -/
def Choice.text : Choice → String
  | .mk t _ => t

/-- Field accessor for `Choice.kind`. -/
def Choice.kind : Choice → ChoiceKind
  | .mk _ k => k

/-- `Node` from `src/engine.rs`; `extra` (a `HashMap`) as association list. -/
structure Node where
  title : String
  extra : List (String × String)
  steps : List Step
  visited : Bool

/-- `StepIndex` from `src/engine.rs`: one level of entered nesting. -/
inductive StepIndex where
  | Dialogue (choice : Nat) (idx : Nat)
  | If (idx : Nat)
  | ElseIf (branch : Nat) (idx : Nat)
  | Else (idx : Nat)
deriving DecidableEq

/-- `StepIndex::advance` from `src/engine.rs`: increment the inner index. -/
def StepIndex.advance : StepIndex → StepIndex
  | .Dialogue c i => .Dialogue c (i + 1)
  | .If i => .If (i + 1)
  | .ElseIf b i => .ElseIf b (i + 1)
  | .Else i => .Else (i + 1)

/-- `Conversation` from `src/engine.rs`. -/
structure Conversation where
  node : String
  baseIndex : Nat
  indexes : List StepIndex
deriving DecidableEq

/-- `Conversation::new` from `src/engine.rs`. -/
def Conversation.new (node : String) : Conversation :=
  { node := node, baseIndex := 0, indexes := [] }

/-- In-place advance of the last element of the scope stack
(`conversation.indexes.last_mut()` in `NodeState::advance`). -/
def advanceLast : List StepIndex → List StepIndex
  | [] => []
  | [i] => [i.advance]
  | i :: rest => i :: advanceLast rest

/-- `NodeState::advance` restricted to the conversation it unwraps:
bump the top of the stack if non-empty, otherwise `base_index`. -/
def Conversation.advance (c : Conversation) : Conversation :=
  match c.indexes with
  | [] => { c with baseIndex := c.baseIndex + 1 }
  | _ :: _ => { c with indexes := advanceLast c.indexes }

/-- The node registry `Nodes` from `src/engine.rs` (a `HashMap<NodeName, Node>`),
as an association list keyed by the title string. -/
abbrev Nodes := List (String × Node)

/-- Association-list lookup, modelling `HashMap::get`. -/
def alookup {α : Type} : List (String × α) → String → Option α
  | [], _ => none
  | (k, v) :: rest, key => if k = key then some v else alookup rest key

/-- Association-list insert-overwrite, modelling `HashMap::insert`. -/
def ainsert {α : Type} : List (String × α) → String → α → List (String × α)
  | [], key, v => [(key, v)]
  | (k, w) :: rest, key, v =>
    if k = key then (key, v) :: rest else (k, w) :: ainsert rest key v

/-- Panic outcomes of the engine (Rust `expect`, `unreachable!`, slice
out-of-bounds, and `unwrap` on a `Result`). -/
inductive PanicKind where
  | noActiveConversation
  | missingNode
  | indexOutOfBounds
  | unreachableCode
  | unwrapFailed
deriving DecidableEq

/-- A registered host function (`Function` from `src/engine.rs`); the
`SendWrapper`ed boxed closure becomes a Lean function.  `Err(())` is
`Except.error ()`. -/
structure Function where
  numArgs : Nat
  callback : List Value → Nodes → Except Unit Value

/-- `EngineState` from `src/engine.rs`: variable store and function registry. -/
structure EngineState where
  vars : List (String × Value)         -- `variables` in the source
  functions : List (String × Function)

/-- `Variables::set` / `HashMap::insert` on the variable store. -/
def EngineState.setVar (st : EngineState) (n : String) (v : Value) : EngineState :=
  { st with vars := ainsert st.vars n v }

mutual
/-- `EngineState::evaluate` from `src/engine.rs`, arm for arm.  All failures
are `Err(())`; argument lists are evaluated left to right before the function
is looked up and its arity checked, as in the source. -/
def evaluate (st : EngineState) (nodes : Nodes) : Expr → Except Unit Value
  | .Parentheses e => evaluate st nodes e
  | .Term (.Number q) => .ok (.Number q)
  | .Term (.Boolean b) => .ok (.Boolean b)
  | .Term (.String s) => .ok (.String s)
  | .Term (.Variable n) =>
    match alookup st.vars n with
    | some v => .ok v
    | none => .error ()
  | .Term (.Function name args) => do
    let vs ← evalArgs st nodes args
    match alookup st.functions name with
    | none => .error ()
    | some f =>
      if f.numArgs ≠ args.length then .error ()
      else f.callback vs nodes
  | .Unary .Not e => do
    let v ← evaluate st nodes e
    .ok (.Boolean (!asBool v))
  | .Unary .Negate e => do
    let v ← evaluate st nodes e
    .ok (.Number (-asNum v))
  | .Binary .And l r => do
    let lv ← evaluate st nodes l
    let rv ← evaluate st nodes r
    .ok (.Boolean (asBool lv && asBool rv))
  | .Binary .Or l r => do
    let lv ← evaluate st nodes l
    let rv ← evaluate st nodes r
    .ok (.Boolean (asBool lv || asBool rv))
  | .Binary .Plus l r => do
    let lv ← evaluate st nodes l
    let rv ← evaluate st nodes r
    .ok (valueAdd lv rv)
  | .Binary .Minus l r => do
    let lv ← evaluate st nodes l
    let rv ← evaluate st nodes r
    .ok (valueSub lv rv)
  | .Binary .Multiply l r => do
    let lv ← evaluate st nodes l
    let rv ← evaluate st nodes r
    .ok (valueMul lv rv)
  | .Binary .Divide l r => do
    let lv ← evaluate st nodes l
    let rv ← evaluate st nodes r
    .ok (valueDiv lv rv)
  | .Binary .Equals l r => do
    let lv ← evaluate st nodes l
    let rv ← evaluate st nodes r
    .ok (.Boolean (valueEq lv rv))
  | .Binary .NotEquals l r => do
    let lv ← evaluate st nodes l
    let rv ← evaluate st nodes r
    .ok (.Boolean (!valueEq lv rv))
  | .Binary .GreaterThan l r => do
    let lv ← evaluate st nodes l
    let rv ← evaluate st nodes r
    .ok (.Boolean (asNum lv > asNum rv))
  | .Binary .GreaterThanEqual l r => do
    let lv ← evaluate st nodes l
    let rv ← evaluate st nodes r
    .ok (.Boolean (asNum lv ≥ asNum rv))
  | .Binary .LessThan l r => do
    let lv ← evaluate st nodes l
    let rv ← evaluate st nodes r
    .ok (.Boolean (asNum lv < asNum rv))
  | .Binary .LessThanEqual l r => do
    let lv ← evaluate st nodes l
    let rv ← evaluate st nodes r
    .ok (.Boolean (asNum lv ≤ asNum rv))

/-- Left-to-right evaluation of a function call's argument list (the `for`
loop inside `EngineState::evaluate`). -/
def evalArgs (st : EngineState) (nodes : Nodes) : List Expr → Except Unit (List Value)
  | [] => .ok []
  | a :: rest => do
    let v ← evaluate st nodes a
    let vs ← evalArgs st nodes rest
    .ok (v :: vs)
end

/-- `NodeState` from `src/engine.rs`: node registry plus optional active
conversation. -/
structure NodeState where
  nodes : Nodes
  conversation : Option Conversation

/-- `NodeState::set_conversation` from `src/engine.rs`. -/
def NodeState.setConversation (s : NodeState) (c : Option String) : NodeState :=
  { s with conversation := c.map Conversation.new }

/-- `NodeState::push_step` from `src/engine.rs`.  The source unwraps the
conversation; every call site has already established that it is `Some`
(via the `get_current_step` check), so the `none` branch is unreachable and
modelled as the identity. -/
def NodeState.pushStep (s : NodeState) (i : StepIndex) : NodeState :=
  match s.conversation with
  | some c => { s with conversation := some { c with indexes := c.indexes ++ [i] } }
  | none => s

/-- `NodeState::advance` from `src/engine.rs`.  As for `pushStep`, the
unwrap of the conversation cannot fail at any call site. -/
def NodeState.advanceStep (s : NodeState) : NodeState :=
  match s.conversation with
  | some c => { s with conversation := some c.advance }
  | none => s

/-- One iteration of the `for` loop inside `NodeState::get_current_step`:
dereference one `StepIndex` against the current step sequence and position,
yielding the nested step sequence and the position inside it.  Rust panics —
indexing `steps[current_step_index]`, `choices[choice]` or `else_ifs[index]`
out of bounds, and the two `unreachable!()` arms — become `Except.error`. -/
def resolveEntry (steps : List Step) (idx : Nat) : StepIndex → Except PanicKind (List Step × Nat)
  | i =>
    match steps[idx]? with
    | none => .error .indexOutOfBounds
    | some s =>
      match s, i with
      | .Dialogue _ cs, .Dialogue c si =>
        (match cs[c]? with
         | some ch =>
           (match ch.kind with
            | .Inline cst _ => .ok (cst, si)
            | .External _ => .error .unreachableCode)
         | none => .error .indexOutOfBounds)
      | .Conditional _ ifS _ _, .If si => .ok (ifS, si)
      | .Conditional _ _ els _, .ElseIf j si =>
        (match els[j]? with
         | some p => .ok (p.2, si)
         | none => .error .indexOutOfBounds)
      | .Conditional _ _ _ elsS, .Else si => .ok (elsS, si)
      | _, _ => .error .unreachableCode

/-- The stack walk inside `NodeState::get_current_step` (the `for` loop over
`conversation.indexes`), one `resolveEntry` per stack entry, finishing with
the source's `steps.get(current_step_index)`. -/
def walk : List Step → Nat → List StepIndex → Except PanicKind (Option Step)
  | steps, idx, [] => .ok steps[idx]?
  | steps, idx, i :: rest =>
    match resolveEntry steps idx i with
    | .ok (s, si) => walk s si rest
    | .error k => .error k

/-- `NodeState::get_current_step` from `src/engine.rs`.  The two `expect`s
(no active conversation, missing node) and all panics inside the walk are
`Except.error`; the final `steps.get(current_step_index)` is the `Option`
inside `.ok`. -/
def NodeState.getCurrentStep (s : NodeState) : Except PanicKind (Option Step) :=
  match s.conversation with
  | none => .error .noActiveConversation
  | some conv =>
    match alookup s.nodes conv.node with
    | none => .error .missingNode
    | some nd => walk nd.steps conv.baseIndex conv.indexes

/-- The built-in `visited` callback registered by `YarnEngine::new`.  The
source indexes `args[0]`; `evaluate` only ever calls it with exactly one
argument (the arity check), so the empty-argument panic is folded into the
`_ => Err(())` arm. -/
def visitedBuiltin : List Value → Nodes → Except Unit Value
  | .String s :: _, nodes =>
    (match alookup nodes s with
     | some nd => .ok (.Boolean nd.visited)
     | none => .error ())
  | _, _ => .error ()

/-- `YarnEngine` from `src/engine.rs`. -/
structure YarnEngine where
  state : NodeState
  engineState : EngineState
  conversionEnded : Bool

/-- `YarnEngine::register_function` from `src/engine.rs`. -/
def YarnEngine.registerFunction (e : YarnEngine) (name : String) (numArgs : Nat)
    (callback : List Value → Nodes → Except Unit Value) : YarnEngine :=
  { e with engineState :=
      { e.engineState with
          functions := ainsert e.engineState.functions name ⟨numArgs, callback⟩ } }

/-- `YarnEngine::new` from `src/engine.rs`: empty registries, no active
conversation, `conversion_ended = false`, with the `visited` built-in
registered. -/
def YarnEngine.new : YarnEngine :=
  YarnEngine.registerFunction
    { state := { nodes := [], conversation := none },
      engineState := { vars := [], functions := [] },
      conversionEnded := false }
    "visited" 1 visitedBuiltin

/-- The node-insertion loop of `YarnEngine::load_from_string`.  The source
first runs `parse::parse_nodes_from_string` (module `parse`, whose file is
not among the sources) and then inserts each parsed node keyed by its title;
parsing is abstracted by taking the already-parsed node list as argument. -/
def YarnEngine.loadNodes (e : YarnEngine) (ns : List Node) : YarnEngine :=
  { e with state :=
      { e.state with
          nodes := ns.foldl (fun acc n => ainsert acc n.title n) e.state.nodes } }

/-- `YarnEngine::set_variable` from `src/engine.rs`. -/
def YarnEngine.setVariable (e : YarnEngine) (n : String) (v : Value) : YarnEngine :=
  { e with engineState := e.engineState.setVar n v }

/-- `YarnEngine::activate` from `src/engine.rs`: install a fresh conversation
at the node and clear the ended flag.  Note: the node's `visited` flag is not
touched (nothing in the source ever sets it). -/
def YarnEngine.activate (e : YarnEngine) (n : String) : YarnEngine :=
  { e with
      state := { e.state with conversation := some (Conversation.new n) },
      conversionEnded := false }

/-- Outcome of `YarnEngine::choose`.  The source's return type is
`Result<(), ()>`; `.ok` is `Ok(())` together with the mutated engine,
`.err` is `Err(())` (never constructed by the source), and `.panicked`
covers the `expect`/`unreachable!`/indexing panics. -/
inductive ChooseRes where
  | ok (e : YarnEngine)
  | err
  | panicked (k : PanicKind)

/-- `YarnEngine::choose` from `src/engine.rs`, arm for arm.  `choices[choice]`
panics when out of bounds; non-`Dialogue` current steps hit `unreachable!()`;
`None` (no current step) returns `Ok(())` without touching any state. -/
def YarnEngine.choose (e : YarnEngine) (choice : Nat) : ChooseRes :=
  match e.state.getCurrentStep with
  | .error k => .panicked k
  | .ok (some (.Dialogue _ choices)) =>
    (match choices[choice]? with
     | none => .panicked .indexOutOfBounds
     | some ch =>
       match ch.kind with
       | .External n => .ok { e with state := e.state.setConversation (some n) }
       | .Inline _ _ => .ok { e with state := e.state.pushStep (.Dialogue choice 0) })
  | .ok none => .ok e
  | .ok (some _) => .panicked .unreachableCode

/-- `YarnEntry` from `src/engine.rs`: the host-visible events. -/
inductive YarnEntry where
  | Say (text : String)
  | Choose (text : String) (choices : List String)
  | Command (action : String)
  | EndConversation
deriving DecidableEq

/-- Result of one pull on the engine iterator.  `.stop` is Rust's `None`,
`.yield` is `Some(entry)` paired with the engine state after the pull,
`.panicked` a panic inside the pull, and `.outOfFuel` the modelling artefact
for an exhausted fuel bound (the source loops unboundedly, e.g. on a
self-`Jump`). -/
inductive NextRes where
  | stop
  | yield (entry : YarnEntry) (e : YarnEngine)
  | panicked (k : PanicKind)
  | outOfFuel

/-- The else-if scan of the `Conditional` arm of `Iterator::next`: evaluate
each else-if condition in declared order, stopping at the first truthy one
and returning its index.  An evaluation failure propagates (the source
`unwrap`s it at the call site). -/
def selectElseIf (st : EngineState) (nodes : Nodes) :
    List (Expr × List Step) → Except Unit (Option Nat)
  | [] => .ok none
  | (c, _) :: rest => do
    let v ← evaluate st nodes c
    if asBool v then .ok (some 0)
    else do
      let r ← selectElseIf st nodes rest
      .ok (r.map (· + 1))

/-- `impl Iterator for YarnEngine`, `fn next`, from `src/engine.rs`.  The
`loop` is unrolled through a fuel parameter: the silent steps (`Assign`,
`Jump`, `Conditional`) recurse with one unit of fuel less, exactly where the
source `continue`s; all other arms return.  The two `unwrap`s on `evaluate`
results are `.panicked .unwrapFailed`. -/
def next : Nat → YarnEngine → NextRes
  | 0, _ => .outOfFuel
  | fuel + 1, e =>
    if e.state.conversation.isNone then .stop
    else if e.conversionEnded then .stop
    else
      match e.state.getCurrentStep with
      | .error k => .panicked k
      | .ok none => .yield .EndConversation { e with conversionEnded := true }
      | .ok (some (.Dialogue text choices)) =>
        if choices.isEmpty then .yield (.Say text) { e with state := e.state.advanceStep }
        else .yield (.Choose text (choices.map Choice.text)) e
      | .ok (some (.Command c)) =>
        .yield (.Command c) { e with state := e.state.advanceStep }
      | .ok (some (.Assign n ex)) =>
        (match evaluate e.engineState e.state.nodes ex with
         | .error _ => .panicked .unwrapFailed
         | .ok v =>
           next fuel
             { e with
                 engineState := e.engineState.setVar n v,
                 state := e.state.advanceStep })
      | .ok (some (.Jump n)) =>
        next fuel { e with state := e.state.setConversation (some n) }
      | .ok (some (.Conditional cond _ifS elseIfs _elseS)) =>
        (match evaluate e.engineState e.state.nodes cond with
         | .error _ => .panicked .unwrapFailed
         | .ok v =>
           if asBool v then next fuel { e with state := e.state.pushStep (.If 0) }
           else
             match selectElseIf e.engineState e.state.nodes elseIfs with
             | .error _ => .panicked .unwrapFailed
             | .ok (some j) => next fuel { e with state := e.state.pushStep (.ElseIf j 0) }
             | .ok none => next fuel { e with state := e.state.pushStep (.Else 0) })

/-! ### Scope-stack well-formedness (claim C10 infrastructure)

`walkOK` is the well-formedness predicate on a conversation's scope stack:
every entry dereferences successfully against the step at its nesting level.
It is exactly the condition under which `walk` (and hence
`get_current_step`) cannot panic. -/

/-- Every scope-stack entry dereferences successfully (no panic in the walk);
the final position is unconstrained (`steps.get` is total). -/
def walkOK : List Step → Nat → List StepIndex → Bool
  | _, _, [] => true
  | steps, idx, i :: rest =>
    match resolveEntry steps idx i with
    | .ok (s, si) => walkOK s si rest
    | .error _ => false

/-- A `StepIndex` freshly pushed at step `s0` will dereference: the step and
the entry have matching shapes and in-range indices. -/
def pushOK : Step → StepIndex → Bool
  | .Dialogue _ cs, .Dialogue c _ =>
    (match cs[c]? with
     | some ch =>
       (match ch.kind with
        | .Inline _ _ => true
        | .External _ => false)
     | none => false)
  | .Conditional _ _ _ _, .If _ => true
  | .Conditional _ _ els _, .ElseIf j _ => decide (j < els.length)
  | .Conditional _ _ _ _, .Else _ => true
  | _, _ => false

theorem resolveEntry_advance {steps : List Step} {idx : Nat} {i : StepIndex}
    {s : List Step} {si : Nat} (h : resolveEntry steps idx i = .ok (s, si)) :
    resolveEntry steps idx i.advance = .ok (s, si + 1) := by
  unfold resolveEntry at h ⊢
  cases hs : steps[idx]? with
  | none => rw [hs] at h; cases h
  | some st =>
    rw [hs] at h
    cases st <;> cases i <;> simp_all [StepIndex.advance]
    case Dialogue.Dialogue _ cs c si' =>
      cases hc : cs[c]? with
      | none => rw [hc] at h; cases h
      | some ch =>
        rw [hc] at h
        cases ch with
        | mk ct ck => cases ck <;> simp_all [Choice.kind]
    case Conditional.ElseIf _ _ els _ j si' =>
      cases he : els[j]? with
      | none => rw [he] at h; cases h
      | some p => rw [he] at h; simp_all

theorem pushOK_resolve {steps : List Step} {idx : Nat} {s0 : Step} {i : StepIndex}
    (hs : steps[idx]? = some s0) (hp : pushOK s0 i = true) :
    ∃ pr, resolveEntry steps idx i = .ok pr := by
  unfold resolveEntry
  rw [hs]
  cases s0 <;> cases i <;> simp_all [pushOK]
  case Dialogue.Dialogue _ cs c si =>
    cases hc : cs[c]? with
    | none => rw [hc] at hp; cases hp
    | some ch =>
      rw [hc] at hp
      cases ch with
      | mk ct ck => cases ck <;> simp_all [Choice.kind]

theorem walkOK_sound : ∀ (t : List StepIndex) (steps : List Step) (idx : Nat),
    walkOK steps idx t = true → ∃ r, walk steps idx t = .ok r := by
  intro t
  induction t with
  | nil => intro steps idx _; exact ⟨steps[idx]?, rfl⟩
  | cons i rest ih =>
    intro steps idx h
    unfold walkOK at h
    unfold walk
    cases hr : resolveEntry steps idx i with
    | error k => rw [hr] at h; cases h
    | ok pr =>
      rw [hr] at h
      exact ih pr.1 pr.2 h

theorem walk_append : ∀ (t : List StepIndex) (steps : List Step) (idx : Nat)
    (s0 : Step) (i : StepIndex),
    walk steps idx t = .ok (some s0) → pushOK s0 i = true →
    walkOK steps idx (t ++ [i]) = true := by
  intro t
  induction t with
  | nil =>
    intro steps idx s0 i hw hp
    unfold walk at hw
    have hs : steps[idx]? = some s0 := by
      cases hs' : steps[idx]? <;> rw [hs'] at hw <;> cases hw <;> rfl
    obtain ⟨pr, hpr⟩ := pushOK_resolve hs hp
    simp [walkOK, hpr]
  | cons j rest ih =>
    intro steps idx s0 i hw hp
    unfold walk at hw
    cases hr : resolveEntry steps idx j with
    | error k => rw [hr] at hw; cases hw
    | ok pr =>
      rw [hr] at hw
      have := ih pr.1 pr.2 s0 i hw hp
      simp [walkOK, hr, this]

theorem walkOK_advanceLast : ∀ (t : List StepIndex) (steps : List Step) (idx : Nat),
    walkOK steps idx t = true → walkOK steps idx (advanceLast t) = true := by
  intro t
  induction t with
  | nil => intro steps idx h; exact h
  | cons i rest ih =>
    intro steps idx h
    unfold walkOK at h
    cases hr : resolveEntry steps idx i with
    | error k => rw [hr] at h; cases h
    | ok pr =>
      obtain ⟨s', si'⟩ := pr
      rw [hr] at h
      cases rest with
      | nil =>
        have h2 := resolveEntry_advance hr
        show walkOK steps idx [i.advance] = true
        simp [walkOK, h2]
      | cons j rest' =>
        show walkOK steps idx (i :: advanceLast (j :: rest')) = true
        simp only [walkOK, hr]
        exact ih s' si' h

/-- The scope-stack well-formedness invariant on a `NodeState`: whenever a
conversation is active and its node is present in the registry, every entry
of its scope stack dereferences successfully. -/
def InvS (s : NodeState) : Prop :=
  ∀ conv, s.conversation = some conv →
    ∀ nd, alookup s.nodes conv.node = some nd →
      walkOK nd.steps conv.baseIndex conv.indexes = true

/-- The invariant on a whole engine (it only concerns `state`). -/
def Inv (e : YarnEngine) : Prop := InvS e.state

theorem selectElseIf_lt : ∀ (l : List (Expr × List Step)) (st : EngineState)
    (nodes : Nodes) (j : Nat),
    selectElseIf st nodes l = .ok (some j) → j < l.length := by
  intro l
  induction l with
  | nil => intro st nodes j h; simp [selectElseIf] at h
  | cons p rest ih =>
    intro st nodes j h
    obtain ⟨c, bs⟩ := p
    simp only [selectElseIf] at h
    cases hv : evaluate st nodes c with
    | error u => rw [hv] at h; simp [Bind.bind, Except.bind] at h
    | ok v =>
      rw [hv] at h
      simp only [Bind.bind, Except.bind] at h
      by_cases hb : asBool v
      · simp only [hb, if_true, Except.ok.injEq, Option.some.injEq] at h
        simp only [List.length_cons]
        omega
      · simp only [hb, Bool.false_eq_true, if_false] at h
        cases hr : selectElseIf st nodes rest with
        | error u => rw [hr] at h; simp at h
        | ok r =>
          rw [hr] at h
          cases r with
          | none => simp at h
          | some j' =>
            simp at h
            have := ih st nodes j' hr
            simp only [List.length_cons]
            omega

theorem selectElseIf_some_spec : ∀ (l : List (Expr × List Step)) (st : EngineState)
    (nodes : Nodes) (j : Nat),
    selectElseIf st nodes l = .ok (some j) →
    ∃ p, l[j]? = some p ∧ ∃ v, evaluate st nodes p.1 = .ok v ∧ asBool v = true := by
  intro l
  induction l with
  | nil => intro st nodes j h; simp [selectElseIf] at h
  | cons p rest ih =>
    intro st nodes j h
    obtain ⟨c, bs⟩ := p
    simp only [selectElseIf] at h
    cases hv : evaluate st nodes c with
    | error u => rw [hv] at h; simp [Bind.bind, Except.bind] at h
    | ok v =>
      rw [hv] at h
      simp only [Bind.bind, Except.bind] at h
      by_cases hb : asBool v
      · simp only [hb, if_true, Except.ok.injEq, Option.some.injEq] at h
        subst h
        exact ⟨(c, bs), by simp, v, hv, hb⟩
      · simp only [hb, Bool.false_eq_true, if_false] at h
        cases hr : selectElseIf st nodes rest with
        | error u => rw [hr] at h; simp at h
        | ok r =>
          rw [hr] at h
          cases r with
          | none => simp at h
          | some j' =>
            simp at h
            obtain ⟨q, hq, v', hv', hb'⟩ := ih st nodes j' hr
            subst h
            exact ⟨q, by simpa using hq, v', hv', hb'⟩

theorem selectElseIf_some_before : ∀ (l : List (Expr × List Step)) (st : EngineState)
    (nodes : Nodes) (j k : Nat),
    selectElseIf st nodes l = .ok (some j) → k < j →
    ∃ p, l[k]? = some p ∧ ∃ v, evaluate st nodes p.1 = .ok v ∧ asBool v = false := by
  intro l
  induction l with
  | nil => intro st nodes j k h; simp [selectElseIf] at h
  | cons p rest ih =>
    intro st nodes j k h hk
    obtain ⟨c, bs⟩ := p
    simp only [selectElseIf] at h
    cases hv : evaluate st nodes c with
    | error u => rw [hv] at h; simp [Bind.bind, Except.bind] at h
    | ok v =>
      rw [hv] at h
      simp only [Bind.bind, Except.bind] at h
      by_cases hb : asBool v
      · simp only [hb, if_true, Except.ok.injEq, Option.some.injEq] at h
        omega
      · simp only [hb, Bool.false_eq_true, if_false] at h
        cases hr : selectElseIf st nodes rest with
        | error u => rw [hr] at h; simp at h
        | ok r =>
          rw [hr] at h
          cases r with
          | none => simp at h
          | some j' =>
            simp at h
            subst h
            cases k with
            | zero =>
              refine ⟨(c, bs), by simp, v, hv, ?_⟩
              simpa using hb
            | succ k' =>
              obtain ⟨q, hq, v', hv', hb'⟩ := ih st nodes j' k' hr (by omega)
              exact ⟨q, by simpa using hq, v', hv', hb'⟩

theorem getCurrentStep_walk {s : NodeState} {r : Option Step}
    (h : s.getCurrentStep = .ok r) :
    ∃ conv nd, s.conversation = some conv ∧ alookup s.nodes conv.node = some nd ∧
      walk nd.steps conv.baseIndex conv.indexes = .ok r := by
  unfold NodeState.getCurrentStep at h
  split at h
  · cases h
  next conv hc =>
    split at h
    · cases h
    next nd hn => exact ⟨conv, nd, hc, hn, h⟩

theorem advance_node (c : Conversation) : c.advance.node = c.node := by
  unfold Conversation.advance; split <;> rfl

theorem invS_advance {s : NodeState} (h : InvS s) : InvS s.advanceStep := by
  unfold NodeState.advanceStep
  split
  next c hc =>
    intro conv' hc' nd hn
    have hc2 : some c.advance = some conv' := hc'
    cases hc2
    have hn2 : alookup s.nodes c.advance.node = some nd := hn
    rw [advance_node] at hn2
    have hbase := h c hc nd hn2
    show walkOK nd.steps c.advance.baseIndex c.advance.indexes = true
    cases hi : c.indexes with
    | nil =>
      simp only [Conversation.advance, hi]
      rfl
    | cons i rest =>
      simp only [Conversation.advance, hi]
      rw [hi] at hbase
      exact walkOK_advanceLast _ _ _ hbase
  next hc => exact h

theorem invS_push {s : NodeState} {conv : Conversation} {nd : Node} {s0 : Step}
    {i : StepIndex}
    (hc : s.conversation = some conv)
    (hn : alookup s.nodes conv.node = some nd)
    (hw : walk nd.steps conv.baseIndex conv.indexes = .ok (some s0))
    (hp : pushOK s0 i = true) :
    InvS (s.pushStep i) := by
  unfold NodeState.pushStep
  rw [hc]
  intro conv' hc' nd' hn'
  have hc2 : some { conv with indexes := conv.indexes ++ [i] } = some conv' := hc'
  cases hc2
  have hn2 : alookup s.nodes conv.node = some nd' := hn'
  rw [hn2] at hn
  cases hn
  exact walk_append _ _ _ _ _ hw hp

theorem invS_setConv {s : NodeState} (n : String) :
    InvS (s.setConversation (some n)) := by
  intro conv' hc' nd hn
  have hc2 : some (Conversation.new n) = some conv' := hc'
  cases hc2
  rfl

theorem choose_preserves {e e' : YarnEngine} {choice : Nat}
    (hInv : Inv e) (h : e.choose choice = .ok e') : Inv e' := by
  unfold YarnEngine.choose at h
  split at h
  · cases h
  case _ text cs hg =>
    obtain ⟨conv, nd, hc, hn, hw⟩ := getCurrentStep_walk hg
    split at h
    · cases h
    next ch hch =>
      split at h
      next n hk =>
        cases h
        exact invS_setConv n
      next ist icond hk =>
        cases h
        exact invS_push hc hn hw (by simp [pushOK, hch, hk])
  · cases h; exact hInv
  · cases h

theorem next_preserves : ∀ (fuel : Nat) (e : YarnEngine) (ev : YarnEntry)
    (e' : YarnEngine), Inv e → next fuel e = .yield ev e' → Inv e' := by
  intro fuel
  induction fuel with
  | zero => intro e ev e' _ h; cases h
  | succ fuel ih =>
    intro e ev e' hInv h
    unfold next at h
    split at h
    · cases h
    split at h
    · cases h
    split at h
    · cases h
    case _ hg =>
      cases h
      exact hInv
    case _ text cs hg =>
      split at h <;> cases h
      · exact invS_advance hInv
      · exact hInv
    case _ c hg =>
      cases h
      exact invS_advance hInv
    case _ n ex hg =>
      split at h
      · cases h
      next v hv =>
        refine ih _ _ _ ?_ h
        exact invS_advance hInv
    case _ n hg =>
      refine ih _ _ _ ?_ h
      exact invS_setConv n
    case _ cond ifS elseIfs elseS hg =>
      obtain ⟨conv, nd, hc, hn, hw⟩ := getCurrentStep_walk hg
      split at h
      · cases h
      next v hv =>
        split at h
        next hb =>
          refine ih _ _ _ ?_ h
          exact invS_push hc hn hw (by simp [pushOK])
        next hb =>
          split at h
          · cases h
          next j hs =>
            have hlt := selectElseIf_lt _ _ _ _ hs
            refine ih _ _ _ ?_ h
            exact invS_push hc hn hw (by simp [pushOK, hlt])
          next hs =>
            refine ih _ _ _ ?_ h
            exact invS_push hc hn hw (by simp [pushOK])

/-- States reachable through the public API as the claim reads it: a fresh
engine followed by any sequence of `load_from_string` (abstracted over the
parsed node list), `register_function`, `set_variable`, `activate`, a
successful `choose`, or a successful pull on the iterator. -/
inductive ReachAPI : YarnEngine → Prop where
  | new : ReachAPI YarnEngine.new
  | load {e : YarnEngine} (ns : List Node) :
      ReachAPI e → ReachAPI (e.loadNodes ns)
  | registerFn {e : YarnEngine} (name : String) (numArgs : Nat)
      (cb : List Value → Nodes → Except Unit Value) :
      ReachAPI e → ReachAPI (e.registerFunction name numArgs cb)
  | setVar {e : YarnEngine} (n : String) (v : Value) :
      ReachAPI e → ReachAPI (e.setVariable n v)
  | activate {e : YarnEngine} (n : String) :
      ReachAPI e → ReachAPI (e.activate n)
  | choose {e e' : YarnEngine} (choice : Nat) :
      ReachAPI e → e.choose choice = .ok e' → ReachAPI e'
  | next {e e' : YarnEngine} (fuel : Nat) (ev : YarnEntry) :
      ReachAPI e → next fuel e = .yield ev e' → ReachAPI e'

/-- Same as `ReachAPI`, except that `load` is only permitted while no
conversation is active (the restriction the counterexample to C10 forces). -/
inductive ReachSafe : YarnEngine → Prop where
  | new : ReachSafe YarnEngine.new
  | load {e : YarnEngine} (ns : List Node) :
      ReachSafe e → e.state.conversation = none → ReachSafe (e.loadNodes ns)
  | registerFn {e : YarnEngine} (name : String) (numArgs : Nat)
      (cb : List Value → Nodes → Except Unit Value) :
      ReachSafe e → ReachSafe (e.registerFunction name numArgs cb)
  | setVar {e : YarnEngine} (n : String) (v : Value) :
      ReachSafe e → ReachSafe (e.setVariable n v)
  | activate {e : YarnEngine} (n : String) :
      ReachSafe e → ReachSafe (e.activate n)
  | choose {e e' : YarnEngine} (choice : Nat) :
      ReachSafe e → e.choose choice = .ok e' → ReachSafe e'
  | next {e e' : YarnEngine} (fuel : Nat) (ev : YarnEntry) :
      ReachSafe e → next fuel e = .yield ev e' → ReachSafe e'

theorem reachSafe_inv {e : YarnEngine} (h : ReachSafe e) : Inv e := by
  induction h with
  | new =>
    intro conv hc
    exact absurd hc (by simp [YarnEngine.new, YarnEngine.registerFunction])
  | load ns hr hnone ih =>
    intro conv hc
    exact absurd (hnone ▸ hc) (by simp)
  | registerFn name numArgs cb hr ih => exact ih
  | setVar n v hr ih => exact ih
  | activate n hr ih =>
    intro conv hc nd hn
    have hc2 : some (Conversation.new n) = some conv := hc
    cases hc2
    rfl
  | choose choice hr hch ih => exact choose_preserves ih hch
  | next fuel ev hr hnx ih => exact next_preserves _ _ _ _ ih hnx

end Engine

namespace Lib

/-! Shallow embedding of `src/lib.rs`: the lexer (`TokenIterator`) and the
recursive-descent parser.  `src/lib.rs` is an independent compilation unit
with its own AST types (conditions are unparsed `Conditional::Tmp` strings,
choices are always external); it is embedded separately from `Engine`.

The `TokenIterator`'s one-character pushback buffer (`last_char`) is merged
into the character stream: `push_back(ch)` becomes consing `ch` back onto the
stream, which is observationally identical because every read goes through
`next_char`.  A character that `peek` leaves buffered is likewise kept at the
head of the stream. -/

/-- Lexer state: remaining characters (pushback merged in), the indentation
counter, and the start-of-line flag. -/
structure TokState where
  input : List Char
  lastIndent : Nat
  startOfLine : Bool
deriving DecidableEq

/-- `TokenIterator::new`. -/
def TokState.new (s : String) : TokState :=
  { input := s.data, lastIndent := 0, startOfLine := true }

/-- `Token` from `src/lib.rs` (`Number` holds an `f32`, modelled as `ℚ`). -/
inductive Token where
  | DollarSign | LeftAngle | RightAngle | Equals | Pipe | Plus | Minus
  | Star | Slash | ExclamationMark | LeftBracket | RightBracket
  | LeftParenthesis | RightParenthesis
  | Number (q : ℚ)
  | Word (s : String)
  | StartNode
deriving DecidableEq

/-- Parser outcomes: `err` is `Err(())`, `died` is a Rust panic
(`unwrap`/`unreachable!`), `fuelOut` the fuel-exhaustion modelling artefact. -/
inductive PErr where
  | err
  | died
  | fuelOut
deriving DecidableEq

/-- The newline-skipping loop inside `TokenIterator::peek`. -/
def skipNewlines : List Char → Option Char × List Char
  | [] => (none, [])
  | c :: rest => if c = '\n' then skipNewlines rest else (some c, rest)

/-- `TokenIterator::peek`: skip newlines, return the next character and leave
it buffered (here: at the head of the stream). -/
def TokState.peek (t : TokState) : Option Char × TokState :=
  match skipNewlines t.input with
  | (some c, rest) => (some c, { t with input := c :: rest })
  | (none, rest) => (none, { t with input := rest })

/-- Split the stream at the first newline (consumed), for
`remainder_of_line`. -/
def splitAtNewline : List Char → List Char × Option (List Char)
  | [] => ([], none)
  | c :: rest =>
    if c = '\n' then ([], some rest)
    else
      let (a, b) := splitAtNewline rest
      (c :: a, b)

/-- `TokenIterator::remainder_of_line`: everything up to the next newline;
at end of input, `None` only if nothing was collected. -/
def TokState.remainderOfLine (t : TokState) : Option String × TokState :=
  match splitAtNewline t.input with
  | (buf, some rest) => (some (String.mk buf), { t with input := rest })
  | (buf, none) =>
    if buf.isEmpty then (none, { t with input := [] })
    else (some (String.mk buf), { t with input := [] })

/-- `parse_string_until`: raw characters until the delimiter (consumed);
running out of input is `Err(())` (`next_char().ok_or(())?`). -/
def stringUntilAux : List Char → Char → Except PErr (List Char × List Char)
  | [], _ => .error .err
  | c :: rest, u =>
    if c = u then .ok ([], rest)
    else
      match stringUntilAux rest u with
      | .ok (buf, rem) => .ok (c :: buf, rem)
      | .error e => .error e

/-- `parse_string_until` on the lexer state. -/
def TokState.stringUntil (t : TokState) (u : Char) : Except PErr (String × TokState) :=
  match stringUntilAux t.input u with
  | .ok (buf, rest) => .ok (String.mk buf, { t with input := rest })
  | .error e => .error e

/-- ASCII digit test (the `'0'...'9'` range pattern). -/
def isDigit (c : Char) : Bool := decide ('0' ≤ c) && decide (c ≤ '9')

/-- The number-scanning loop of `TokenIterator::next`: greedy digits with at
most one decimal point; the terminating character is pushed back. -/
def scanNumber : List Char → List Char → Bool → List Char × List Char
  | [], acc, _ => (acc.reverse, [])
  | c :: rest, acc, beforeDec =>
    if isDigit c then scanNumber rest (c :: acc) beforeDec
    else if c = '.' && beforeDec then scanNumber rest (c :: acc) false
    else (acc.reverse, c :: rest)

/-- Decimal digits to `Nat`. -/
def digitsToNat (l : List Char) : Nat :=
  l.foldl (fun n c => 10 * n + (c.toNat - 48)) 0

/-- `buffer.parse::<f32>()` on the shapes `scanNumber` yields (digits, at
most one point): exact rational value.  Rust's parse is `Ok` on all these
shapes, so no failure case is needed. -/
def ratFromBuffer (l : List Char) : ℚ :=
  let ip := l.takeWhile isDigit
  let rest := l.dropWhile isDigit
  match rest with
  | [] => (digitsToNat ip : ℚ)
  | _ :: frac => (digitsToNat ip : ℚ) + (digitsToNat frac : ℚ) / (10 ^ frac.length : ℚ)

/-- The word-scanning loop of `TokenIterator::next`: consume until a space or
newline (pushed back) or end of input. -/
def scanWord : List Char → List Char → String × List Char
  | [], acc => (String.mk acc.reverse, [])
  | c :: rest, acc =>
    if c = ' ' || c = '\n' then (String.mk acc.reverse, c :: rest)
    else scanWord rest (c :: acc)

/-- `impl Iterator for TokenIterator`, `fn next`, arm for arm.  Each loop
iteration consumes one character; `start_of_line` is cleared by any
non-space character before the dispatch, and the `'\n'` arm then re-sets it
and zeroes the indent, exactly as in the source. -/
def nextTokenAux : List Char → Nat → Bool → Option Token × TokState
  | [], li, so => (none, ⟨[], li, so⟩)
  | c :: rest, li, so =>
    let so2 := if c ≠ ' ' then false else so
    if c = '(' then (some .LeftParenthesis, ⟨rest, li, so2⟩)
    else if c = ')' then (some .RightParenthesis, ⟨rest, li, so2⟩)
    else if c = '|' then (some .Pipe, ⟨rest, li, so2⟩)
    else if c = '$' then (some .DollarSign, ⟨rest, li, so2⟩)
    else if c = '<' then (some .LeftAngle, ⟨rest, li, so2⟩)
    else if c = '>' then (some .RightAngle, ⟨rest, li, so2⟩)
    else if c = '=' then (some .Equals, ⟨rest, li, so2⟩)
    else if c = '-' then (some .Minus, ⟨rest, li, so2⟩)
    else if c = '+' then (some .Plus, ⟨rest, li, so2⟩)
    else if c = '*' then (some .Star, ⟨rest, li, so2⟩)
    else if c = '/' then (some .Slash, ⟨rest, li, so2⟩)
    else if c = '!' then (some .ExclamationMark, ⟨rest, li, so2⟩)
    else if c = '[' then (some .LeftBracket, ⟨rest, li, so2⟩)
    else if c = ']' then (some .RightBracket, ⟨rest, li, so2⟩)
    else if isDigit c then
      let (buf, rem) := scanNumber rest [c] true
      (some (.Number (ratFromBuffer buf)), ⟨rem, li, so2⟩)
    else if c = ' ' then
      if so then nextTokenAux rest (li + 1) so2
      else nextTokenAux rest li so2
    else if c = '\n' then nextTokenAux rest 0 true
    else
      let (w, rem) := scanWord rest [c]
      (some (.Word w), ⟨rem, li, so2⟩)

/-- One token from the lexer state. -/
def nextToken (t : TokState) : Option Token × TokState :=
  nextTokenAux t.input t.lastIndent t.startOfLine

/-- `UnaryOp` from `src/lib.rs`. -/
inductive UnaryOp where
  | Not
  | Negate
deriving DecidableEq

/-- `BinaryOp` from `src/lib.rs` (no comparison operators in this file). -/
inductive BinaryOp where
  | And | Or | Plus | Minus | Multiply | Divide | Equals | NotEquals
deriving DecidableEq

mutual
/-- `Expr` from `src/lib.rs`. -/
inductive Expr where
  | Unary (op : UnaryOp) (e : Expr)
  | Binary (op : BinaryOp) (l r : Expr)
  | Term (t : Term)
  | Parentheses (e : Expr)

/-- `Term` from `src/lib.rs`. -/
inductive Term where
  | Number (q : ℚ)
  | Boolean (b : Bool)
  | String (s : String)
  | Variable (n : String)
  | Function (name : String) (args : List Expr)
end

/-- `Comparison` from `src/lib.rs`. -/
inductive Comparison where
  | Equal | NotEqual | GreaterThan | LessThan | GreaterEqual | LessEqual
deriving DecidableEq

/-- `Conditional` from `src/lib.rs`; the parser only ever builds `Tmp`. -/
inductive Conditional where
  | Truthy (e : Expr)
  | Comparison (l : Expr) (c : Comparison) (r : Expr)
  | Tmp (s : String)

/-- `Choice` from `src/lib.rs`: always external (text plus target node). -/
structure Choice where
  text : String
  target : String
deriving DecidableEq

/-- `Step` from `src/lib.rs` (note the unparsed `Conditional` conditions and
the `Stop` variant the parser never produces). -/
inductive Step where
  | Dialogue (text : String) (choices : List Choice)
  | Command (text : String)
  | Assign (n : String) (e : Expr)
  | Conditional (c : Conditional) (ifSteps : List Step)
      (elseIfs : List (Conditional × List Step)) (elseSteps : List Step)
  | Jump (n : String)
  | Stop

/-- `Node` from `src/lib.rs` (`extra` as association list). -/
structure Node where
  title : String
  extra : List (String × String)
  steps : List Step
  visited : Bool

/-- `Line` from `src/lib.rs`. -/
inductive Line where
  | Dialogue (s : String)
  | If (s : String)
  | ElseIf (s : String)
  | Else
  | EndIf
  | Action (s : String)
  | Option (text : Option String) (target : String)
  | InlineOption (s : String) (cond : Option String)

/-- Whitespace for Rust `str::trim` (the whitespace actually occurring in
scripts). -/
def isWS (c : Char) : Bool := c = ' ' || c = '\t' || c = '\n' || c = '\r'

/-- Rust `str::trim` on a character list. -/
def trimChars (l : List Char) : List Char :=
  ((l.dropWhile isWS).reverse.dropWhile isWS).reverse

/-- Rust `str::trim`. -/
def strTrim (s : String) : String := String.mk (trimChars s.data)

/-- Rust `str::starts_with`. -/
def startsWith (s p : String) : Bool := List.isPrefixOf p.data s.data

/-- Rust `&s[n..]` (character index; all relevant scripts are ASCII). -/
def strDrop (s : String) (n : Nat) : String := String.mk (s.data.drop n)

/-- Rust `str::find` of a substring, as a character index. -/
def findSub (pat : List Char) : List Char → Option Nat
  | [] => if List.isPrefixOf pat [] then some 0 else none
  | c :: rest =>
    if List.isPrefixOf pat (c :: rest) then some 0
    else (findSub pat rest).map (· + 1)

/-- Rust `str::split(sep)` on a character list; always non-empty. -/
def splitChar (sep : Char) : List Char → List (List Char)
  | [] => [[]]
  | c :: rest =>
    let r := splitChar sep rest
    if c = sep then [] :: r
    else
      match r with
      | [] => [[c]]
      | a :: b => (c :: a) :: b

/-- `parse_expr` from `src/lib.rs`: one primary, then — unless the peeked
character is `')'` or input is exhausted — exactly one operator whose
right-hand side is a full recursive parse.  The `tokenizer.next().unwrap()`
after the peek is `.died` when no token remains. -/
def parseExpr : Nat → TokState → Except PErr (Expr × TokState)
  | 0, _ => .error .fuelOut
  | fuel + 1, t0 =>
    match nextToken t0 with
    | (none, _) => .error .err
    | (some tok, t1) => do
      let (left, t2) ←
        (match tok with
         | .Number q => .ok (Expr.Term (.Number q), t1)
         | .ExclamationMark => do
           let (e, t) ← parseExpr fuel t1
           .ok (Expr.Unary .Not e, t)
         | .Minus => do
           let (e, t) ← parseExpr fuel t1
           .ok (Expr.Unary .Negate e, t)
         | .DollarSign =>
           (match nextToken t1 with
            | (some (.Word name), tv) => .ok (Expr.Term (.Variable name), tv)
            | (some _, _) => .error .err
            | (none, _) => .error .err)
         | .LeftParenthesis => do
           let (e, t) ← parseExpr fuel t1
           .ok (Expr.Parentheses e, t)
         | _ => .error .err : Except PErr (Expr × TokState))
      match t2.peek with
      | (some ')', t3) => .ok (left, t3)
      | (none, t3) => .ok (left, t3)
      | (some _, t3) =>
        match nextToken t3 with
        | (none, _) => .error .died
        | (some opTok, t4) => do
          let (op, t5) ←
            (match opTok with
             | .Plus => .ok (BinaryOp.Plus, t4)
             | .Minus => .ok (BinaryOp.Minus, t4)
             | .Star => .ok (BinaryOp.Multiply, t4)
             | .Slash => .ok (BinaryOp.Divide, t4)
             | .ExclamationMark =>
               (match nextToken t4 with
                | (some .Equals, te) => .ok (BinaryOp.NotEquals, te)
                | (some _, _) => .error .err
                | (none, _) => .error .err)
             | .Equals =>
               (match nextToken t4 with
                | (some .Equals, te) => .ok (BinaryOp.Equals, te)
                | (some _, _) => .error .err
                | (none, _) => .error .err)
             | .Word w =>
               if w = "and" then .ok (BinaryOp.And, t4)
               else if w = "or" then .ok (BinaryOp.Or, t4)
               else if w = "eq" then .ok (BinaryOp.Equals, t4)
               else if w = "neq" then .ok (BinaryOp.NotEquals, t4)
               else .error .err
             | _ => .error .err : Except PErr (BinaryOp × TokState))
          let (right, t6) ← parseExpr fuel t5
          .ok (Expr.Binary op left right, t6)

/-- `do_parse_line` from `src/lib.rs`. -/
def doParseLine (tok : Token) (t : TokState) : Except PErr (Line × TokState) :=
  match tok with
  | .Word text =>
    (match t.remainderOfLine with
     | (none, _) => .error .err
     | (some rest, t1) => .ok (.Dialogue (text ++ rest), t1))
  | .LeftAngle =>
    (match nextToken t with
     | (some .LeftAngle, t1) =>
       (match t1.stringUntil '>' with
        | .error e => .error e
        | .ok (rest, t2) =>
          (match nextToken t2 with
           | (some .RightAngle, t3) =>
             if startsWith rest "if " then .ok (.If (strTrim (strDrop rest 3)), t3)
             else if startsWith rest "elseif " then .ok (.ElseIf (strTrim (strDrop rest 7)), t3)
             else if strTrim rest = "else" then .ok (.Else, t3)
             else if strTrim rest = "endif" then .ok (.EndIf, t3)
             else .ok (.Action (strTrim rest), t3)
           | (some _, _) => .error .err
           | (none, _) => .error .err))
     | (some _, _) => .error .err
     | (none, _) => .error .err)
  | .LeftBracket =>
    (match nextToken t with
     | (some .LeftBracket, t1) =>
       (match t1.stringUntil ']' with
        | .error e => .error e
        | .ok (contents, t2) =>
          (match nextToken t2 with
           | (some .RightBracket, t3) =>
             (match splitChar '|' contents.data with
              | [] => .error .died
              | [first] => .ok (.Option none (String.mk first), t3)
              | first :: second :: _ =>
                .ok (.Option (some (String.mk first)) (String.mk second), t3))
           | (some _, _) => .error .err
           | (none, _) => .error .err))
     | (some _, _) => .error .err
     | (none, _) => .error .err)
  | .Minus =>
    (match nextToken t with
     | (some .RightAngle, t1) =>
       (match t1.remainderOfLine with
        | (none, _) => .error .err
        | (some rest, t2) =>
          (match findSub ['<', '<'] rest.data with
           | some i =>
             let remainder := rest.data.drop (i + 2)
             (match findSub ['>', '>'] remainder with
              | none => .error .err
              | some e2 =>
                .ok (.InlineOption (String.mk (trimChars (rest.data.take i)))
                      (some (String.mk (trimChars (remainder.take e2)))), t2))
           | none => .ok (.InlineOption rest none, t2)))
     | (some _, _) => .error .err
     | (none, _) => .error .err)
  | _ => .error .err

/-- `parse_line` from `src/lib.rs`: a token, the indent recorded after it,
then `do_parse_line`. -/
def parseLine (t : TokState) : Except PErr ((Nat × Line) × TokState) :=
  match nextToken t with
  | (none, _) => .error .err
  | (some tok, t1) => do
    let (l, t2) ← doParseLine tok t1
    .ok ((t1.lastIndent, l), t2)

/-- `DialogueOption` from `src/lib.rs`. -/
inductive DialogueOption where
  | Inline (s : String) (cond : Option String)
  | External (text : String) (target : String)

/-- `try_parse_option` from `src/lib.rs`; the catch-all `unreachable!()` is
`.died` (it fires on e.g. a `[[Target]]` jump line after a dialogue line). -/
def tryParseOption (t : TokState) : Except PErr (Option DialogueOption × TokState) :=
  match t.peek with
  | (none, t1) => .ok (none, t1)
  | (some c, t1) =>
    if c = '[' || c = '-' then
      match parseLine t1 with
      | .error e => .error e
      | .ok ((_indent, line), t2) =>
        match line with
        | .Option (some text) name => .ok (some (.External text name), t2)
        | .InlineOption s cond => .ok (some (.Inline s cond), t2)
        | _ => .error .died
    else .ok (none, t1)

/-- `ConditionalParts` from `src/lib.rs`. -/
structure ConditionalParts where
  ifSteps : List Step
  elseIfs : List (Conditional × List Step)
  elseSteps : List Step

/-- `ConditionalParsePhase` from `src/lib.rs`. -/
inductive CondPhase where
  | If
  | ElseIf
  | Else
deriving DecidableEq

/-- `parts.else_ifs.iter_mut().last().unwrap().1.push(step)`; `none` when the
list is empty (the `unwrap` panic, unreachable because the `ElseIf` phase is
only entered after a push). -/
def pushLastElseIf : List (Conditional × List Step) → Step → Option (List (Conditional × List Step))
  | [], _ => none
  | [(c, ss)], st => some [(c, ss ++ [st])]
  | p :: rest, st => (pushLastElseIf rest st).map (p :: ·)

mutual
/-- `parse_conditional` from `src/lib.rs`, with the loop's mutable `parts`
and `phase` as accumulator arguments. -/
def parseConditional : Nat → TokState → ConditionalParts → CondPhase →
    Except PErr (ConditionalParts × TokState)
  | 0, _, _, _ => .error .fuelOut
  | fuel + 1, t, parts, phase =>
    match parseLine t with
    | .error e => .error e
    | .ok ((_idx, line), t1) =>
      match line with
      | .ElseIf s =>
        if phase = .Else then .error .err
        else parseConditional fuel t1
          { parts with elseIfs := parts.elseIfs ++ [(.Tmp s, [])] } .ElseIf
      | .Else =>
        if phase = .Else then .error .err
        else parseConditional fuel t1 parts .Else
      | .EndIf => .ok (parts, t1)
      | l =>
        match parseToplevelLine fuel t1 l with
        | .error e => .error e
        | .ok (step, t2) =>
          match phase with
          | .If => parseConditional fuel t2
              { parts with ifSteps := parts.ifSteps ++ [step] } phase
          | .ElseIf =>
            (match pushLastElseIf parts.elseIfs step with
             | none => .error .died
             | some els => parseConditional fuel t2 { parts with elseIfs := els } phase)
          | .Else => parseConditional fuel t2
              { parts with elseSteps := parts.elseSteps ++ [step] } phase

/-- The dialogue-choice accumulation loop of `parse_toplevel_line`
(`Line::Dialogue` arm): inline options are a hard `Err(())` (the `//TODO`),
external options accumulate, the first non-option line ends the run. -/
def parseDialogueChoices : Nat → TokState → String → List Choice →
    Except PErr (Step × TokState)
  | 0, _, _, _ => .error .fuelOut
  | fuel + 1, t, s, choices =>
    match tryParseOption t with
    | .error e => .error e
    | .ok (some (.Inline _ _), _) => .error .err
    | .ok (some (.External text node), t1) =>
      parseDialogueChoices fuel t1 s (choices ++ [⟨text, node⟩])
    | .ok (none, t1) => .ok (Step.Dialogue s choices, t1)

/-- `parse_toplevel_line` from `src/lib.rs`. -/
def parseToplevelLine : Nat → TokState → Line → Except PErr (Step × TokState)
  | 0, _, _ => .error .fuelOut
  | fuel + 1, t, line =>
    match line with
    | .Dialogue s => parseDialogueChoices fuel t s []
    | .If s =>
      (match parseConditional fuel t ⟨[], [], []⟩ .If with
       | .error e => .error e
       | .ok (parts, t1) =>
         .ok (Step.Conditional (.Tmp s) parts.ifSteps parts.elseIfs parts.elseSteps, t1))
    | .Action s =>
      if startsWith s "set " then
        let rest := strTrim (strDrop s 4)
        match findSub [' '] rest.data with
        | none => .error .err
        | some varEnd =>
          let var := String.mk (rest.data.take varEnd)
          (match parseExpr fuel (TokState.new (String.mk (rest.data.drop varEnd))) with
           | .error e => .error e
           | .ok (expr, _) => .ok (Step.Assign var expr, t))
      else .ok (Step.Command s, t)
    | .Option none name => .ok (Step.Jump name, t)
    | .EndIf => .error .err
    | .ElseIf _ => .error .err
    | .Else => .error .err
    | .Option (some _) _ => .error .err
    | .InlineOption _ _ => .error .err
end

/-- `parse_step` from `src/lib.rs`. -/
def parseStep (fuel : Nat) (t : TokState) : Except PErr (Step × TokState) :=
  match parseLine t with
  | .error e => .error e
  | .ok ((_i, line), t1) => parseToplevelLine fuel t1 line

/-- `parse_node_contents` from `src/lib.rs`: body steps until the `===`
terminator (note the first `=` token's value is discarded unchecked, as in
the source). -/
def parseNodeContents : Nat → TokState → List Step → Except PErr (List Step × TokState)
  | 0, _, _ => .error .fuelOut
  | fuel + 1, t, steps =>
    match t.peek with
    | (none, _) => .error .err
    | (some c, t1) =>
      if c = '=' then
        let (_, t2) := nextToken t1
        match nextToken t2 with
        | (some .Equals, t3) =>
          (match nextToken t3 with
           | (some .Equals, t4) => .ok (steps, t4)
           | (some _, _) => .error .err
           | (none, _) => .error .err)
        | (some _, _) => .error .err
        | (none, _) => .error .err
      else
        match parseStep fuel t1 with
        | .error e => .error e
        | .ok (st, t2) => parseNodeContents fuel t2 (steps ++ [st])

/-- `parse_node` from `src/lib.rs`: header lines (`title:` checked only for
duplicates, all other keys into `extra` with the trailing `:` stripped)
until `---`, then the body.  Note there is no check that a title was ever
seen. -/
def parseNode : Nat → TokState → Node → Except PErr (Node × TokState)
  | 0, _, _ => .error .fuelOut
  | fuel + 1, t, node =>
    match nextToken t with
    | (none, _) => .error .err
    | (some (.Word name), t1) =>
      (match t1.remainderOfLine with
       | (none, _) => .error .err
       | (some v, t2) =>
         if name = "title:" then
           if node.title ≠ "" then .error .err
           else parseNode fuel t2 { node with title := strTrim v }
         else
           parseNode fuel t2
             { node with
                 extra := Engine.ainsert node.extra
                   (String.mk (name.data.take (name.data.length - 1))) (strTrim v) })
    | (some .Minus, t1) =>
      (match nextToken t1 with
       | (some .Minus, t2) =>
         (match nextToken t2 with
          | (some .Minus, t3) =>
            (match parseNodeContents fuel t3 [] with
             | .error e => .error e
             | .ok (steps, t4) => .ok ({ node with steps := steps }, t4))
          | (some _, _) => .error .err
          | (none, _) => .error .err)
       | (some _, _) => .error .err
       | (none, _) => .error .err)
    | (some _, _) => .error .err

/-- `parse_nodes` from `src/lib.rs`: nodes while `peek` finds input. -/
def parseNodes : Nat → TokState → List Node → Except PErr (List Node × TokState)
  | 0, _, _ => .error .fuelOut
  | fuel + 1, t, acc =>
    match t.peek with
    | (none, t1) => .ok (acc, t1)
    | (some _, t1) =>
      match parseNode fuel t1 { title := "", extra := [], steps := [], visited := false } with
      | .error e => .error e
      | .ok (n, t2) => parseNodes fuel t2 (acc ++ [n])

/-- Whole-string parse (the `parse_nodes_from_string` entry point used by the
engine), with a fuel bound comfortably above anything an input of this
length can consume. -/
def parseNodesFromString (s : String) : Except PErr (List Node) :=
  (parseNodes (s.length + 10) (TokState.new s) []).map Prod.fst

/-- Whole-string expression parse, for exercising `parse_expr` directly. -/
def parseExprFromString (s : String) : Except PErr Expr :=
  (parseExpr (s.length + 10) (TokState.new s)).map Prod.fst

end Lib

/-! ## Claim fixtures and theorems -/

/-- C1 fixture: a registry with the single node `A` (one plain dialogue
line), activated. -/
def c1Node : Engine.Node :=
  { title := "A", extra := [], steps := [.Dialogue "hi" []], visited := false }

/-- C1 fixture: engine after `load` of node `A` and `activate(A)`. -/
def c1Engine : Engine.YarnEngine :=
  (Engine.YarnEngine.new.loadNodes [c1Node]).activate "A"

/-- C1 fixture: the expression `visited("A")`. -/
def c1VisitedCall : Engine.Expr := .Term (.Function "visited" [.Term (.String "A")])

/-- C1 fixture: the engine state after one pull (which yields `Say "hi"`). -/
def c1After : Engine.YarnEngine :=
  { c1Engine with state := { c1Engine.state with conversation := some ⟨"A", 1, []⟩ } }

/-- Claim C1 (code bug): the claim says `visited("A")` is true on any pull
after `activate(A)`, but nothing in `src/engine.rs` ever writes
`Node.visited` — `activate` only replaces the conversation — so the built-in
returns the parse-time value `false` forever: here immediately after
activation, and still after the node's dialogue has been pulled. -/
theorem c1_visited_never_set :
    Engine.evaluate c1Engine.engineState c1Engine.state.nodes c1VisitedCall
      = .ok (.Boolean false)
    ∧ Engine.next 1 c1Engine = .yield (.Say "hi") c1After
    ∧ Engine.evaluate c1After.engineState c1After.state.nodes c1VisitedCall
      = .ok (.Boolean false) := by
  refine ⟨rfl, rfl, rfl⟩

/-- C3 fixture: `activate` on a node name absent from the (empty) registry. -/
def c3Engine : Engine.YarnEngine := Engine.YarnEngine.new.activate "A"

/-- Claim C3 counterexample: activating a missing node and pulling once does
not yield `EndConversation` — it panics (`expect("missing node")` inside
`get_current_step`). -/
theorem c3_counterexample :
    Engine.next 1 c3Engine = .panicked .missingNode
    ∧ Engine.next 1 c3Engine
        ≠ .yield .EndConversation { c3Engine with conversionEnded := true } := by
  refine ⟨rfl, ?_⟩
  show Engine.NextRes.panicked .missingNode ≠ _
  simp

/-- Claim C3 (amended): `activate(N)` for an absent node `N` is itself
accepted — it installs a fresh conversation at `N` and clears the ended
flag — but the first subsequent pull panics with the `missing node`
`expect` rather than yielding `EndConversation`. -/
theorem c3_amended :
    c3Engine.state.conversation = some (Engine.Conversation.new "A")
    ∧ c3Engine.conversionEnded = false
    ∧ (∀ fuel : Nat, Engine.next (fuel + 1) c3Engine = .panicked .missingNode) := by
  refine ⟨rfl, rfl, fun fuel => rfl⟩

/-- C2 fixture: node `A` with a single plain dialogue step. -/
def c2Node : Engine.Node :=
  { title := "A", extra := [], steps := [.Dialogue "x" []], visited := false }

/-- C2 fixture: the engine state one pull after activating `A` — the
conversation is active but the position is past the end, so there is no
current step. -/
def c2Engine : Engine.YarnEngine :=
  { state := { nodes := [("A", c2Node)], conversation := some ⟨"A", 1, []⟩ },
    engineState := Engine.YarnEngine.new.engineState,
    conversionEnded := false }

/-- Claim C2 counterexample: with no current step, `choose(0)` silently
succeeds (`Ok(())`, state unchanged) instead of failing with a typed
`ChoiceError`; and with no active conversation it panics
(`expect("No active conversation found")`) instead of failing recoverably. -/
theorem c2_counterexample :
    c2Engine.state.getCurrentStep = .ok none
    ∧ Engine.YarnEngine.choose c2Engine 0 = .ok c2Engine
    ∧ Engine.YarnEngine.choose Engine.YarnEngine.new 0
        = .panicked .noActiveConversation := by
  refine ⟨rfl, rfl, rfl⟩

/-- Claim C9 counterexample: a node whose header contains no `title:` line
parses successfully — with the empty string as title — instead of failing
with a missing-title `LoadError`; likewise with a non-title header line. -/
theorem c9_counterexample :
    (Lib.parseNodesFromString "---\nhi\n===\n").map (·.map Lib.Node.title)
      = .ok [""]
    ∧ (Lib.parseNodesFromString "a: b\n---\nhi\n===\n").map
        (·.map (fun n => (n.title, n.extra)))
      = .ok [("", [("a", "b")])] := by
  refine ⟨rfl, rfl⟩

/-- Claim C9 (amended): the title header is not validated for presence —
a node with no `title:` line parses to a node whose title is the empty
string (other header keys still land in `extra`); only a *duplicate*
`title:` line is rejected with a `LoadError`, and a single `title:` line is
honoured. -/
theorem c9_amended :
    (Lib.parseNodesFromString "x: y\n---\nhi\n===\n").map
        (·.map (fun n => (n.title, n.extra)))
      = .ok [("", [("x", "y")])]
    ∧ Lib.parseNodesFromString "title: A\ntitle: B\n---\nhi\n===\n"
        = .error .err
    ∧ (Lib.parseNodesFromString "title: A\n---\nhi\n===\n").map
        (·.map Lib.Node.title)
      = .ok ["A"] := by
  refine ⟨rfl, rfl, rfl⟩

/-- Claim C6: the asymmetric coercion rules of `Value` equality and `+`,
stated arm for arm in the source's match order, plus the two concrete laws.
Equality goes by string representation when either operand is a `String`,
else numerically when either is a `Number`, else by `Bool` equality; `+`
concatenates string representations when either operand is a `String` and
otherwise adds numeric representations; `as_num` maps any `String` to `0`
and a `Boolean` to `0`/`1`. -/
theorem c6_value_coercion :
    (∀ (s : String) (v : Engine.Value),
      Engine.valueEq (.String s) v = (s == Engine.asString v))
    ∧ (∀ (f : ℚ) (s : String),
      Engine.valueEq (.Number f) (.String s) = (s == Engine.asString (.Number f)))
    ∧ (∀ (b : Bool) (s : String),
      Engine.valueEq (.Boolean b) (.String s) = (s == Engine.asString (.Boolean b)))
    ∧ (∀ f g : ℚ, Engine.valueEq (.Number f) (.Number g) = (f == g))
    ∧ (∀ (f : ℚ) (b : Bool),
      Engine.valueEq (.Number f) (.Boolean b) = (f == Engine.asNum (.Boolean b)))
    ∧ (∀ (b : Bool) (f : ℚ),
      Engine.valueEq (.Boolean b) (.Number f) = (f == Engine.asNum (.Boolean b)))
    ∧ (∀ b c : Bool, Engine.valueEq (.Boolean b) (.Boolean c) = (b == c))
    ∧ (∀ (s : String) (v : Engine.Value),
      Engine.valueAdd (.String s) v = .String (s ++ Engine.asString v))
    ∧ (∀ (f : ℚ) (s : String),
      Engine.valueAdd (.Number f) (.String s) = .String (Engine.asString (.Number f) ++ s))
    ∧ (∀ (b : Bool) (s : String),
      Engine.valueAdd (.Boolean b) (.String s) = .String (Engine.asString (.Boolean b) ++ s))
    ∧ (∀ f g : ℚ, Engine.valueAdd (.Number f) (.Number g) = .Number (f + g))
    ∧ (∀ (f : ℚ) (b : Bool),
      Engine.valueAdd (.Number f) (.Boolean b) = .Number (f + Engine.asNum (.Boolean b)))
    ∧ (∀ (b : Bool) (f : ℚ),
      Engine.valueAdd (.Boolean b) (.Number f) = .Number (Engine.asNum (.Boolean b) + f))
    ∧ (∀ b c : Bool, Engine.valueAdd (.Boolean b) (.Boolean c)
        = .Number (Engine.asNum (.Boolean b) + Engine.asNum (.Boolean c)))
    ∧ (∀ s : String, Engine.asNum (.String s) = 0)
    ∧ Engine.asNum (.Boolean true) = 1 ∧ Engine.asNum (.Boolean false) = 0
    ∧ Engine.valueEq (.String "3") (.Number 3) = true
    ∧ Engine.valueAdd (.Boolean true) (.Number 1) = .Number 2 := by
  refine ⟨fun s v => by cases v <;> rfl, fun f s => rfl, fun b s => rfl,
    fun f g => rfl, fun f b => rfl, fun b f => rfl, fun b c => rfl,
    fun s v => by cases v <;> rfl, fun f s => rfl, fun b s => rfl,
    fun f g => rfl, fun f b => rfl, fun b f => rfl, fun b c => rfl,
    fun s => rfl, rfl, rfl, by decide, ?_⟩
  show Engine.Value.Number (Engine.asNum (.Boolean true) + 1) = .Number 2
  norm_num [Engine.asNum]

/-- C8 fixture: the ten operator spellings `parse_expr` accepts, paired with
the `BinaryOp` each maps to. -/
def c8Ops : Fin 10 → String × Lib.BinaryOp :=
  ![("+", .Plus), ("-", .Minus), ("*", .Multiply), ("/", .Divide),
    ("==", .Equals), ("!=", .NotEquals), ("and", .And), ("or", .Or),
    ("eq", .Equals), ("neq", .NotEquals)]

/-- C8 fixture: the two-operator input `1 OP1 2 OP2 3`. -/
def c8Input (o1 o2 : String) : String := "1 " ++ o1 ++ " 2 " ++ o2 ++ " 3"

/-- Claim C8: `parse_expr` is flat and right-associative with no operator
precedence: for every pair of operator spellings, `1 OP1 2 OP2 3` parses as
`Binary(OP1, 1, Binary(OP2, 2, 3))` — in particular `a + b * c` groups as
`a + (b * c)` (shown with variables too) — because the single operator's
right-hand side is a full recursive parse of everything remaining. -/
theorem c8_parse_expr_right_assoc :
    (∀ i j : Fin 10,
      Lib.parseExprFromString (c8Input (c8Ops i).1 (c8Ops j).1)
        = .ok (.Binary (c8Ops i).2 (.Term (.Number 1))
            (.Binary (c8Ops j).2 (.Term (.Number 2)) (.Term (.Number 3)))))
    ∧ Lib.parseExprFromString "$a + $b * $c"
        = .ok (.Binary .Plus (.Term (.Variable "a"))
            (.Binary .Multiply (.Term (.Variable "b")) (.Term (.Variable "c")))) := by
  refine ⟨fun i j => ?_, rfl⟩
  fin_cases i <;> fin_cases j <;> rfl

/-- `advanceLast` is: drop the last element and re-append it advanced. -/
theorem advanceLast_eq_dropLast : ∀ (l : List Engine.StepIndex) (i : Engine.StepIndex),
    l.getLast? = some i → Engine.advanceLast l = l.dropLast ++ [i.advance] := by
  intro l
  induction l with
  | nil => intro i h; cases h
  | cons j rest ih =>
    intro i h
    cases rest with
    | nil =>
      simp only [List.getLast?_singleton, Option.some.injEq] at h
      subst h
      rfl
    | cons k rest' =>
      rw [List.getLast?_cons_cons] at h
      have := ih i h
      show j :: Engine.advanceLast (k :: rest') = (j :: k :: rest').dropLast ++ [i.advance]
      rw [this]
      rfl

/-- `advanceLast` preserves length. -/
theorem advanceLast_length : ∀ l : List Engine.StepIndex,
    (Engine.advanceLast l).length = l.length := by
  intro l
  induction l with
  | nil => rfl
  | cons j rest ih =>
    cases rest with
    | nil => rfl
    | cons k rest' =>
      show (j :: Engine.advanceLast (k :: rest')).length = _
      simp only [List.length_cons]
      simpa using ih

/-- Claim C4: `advance()` touches only the innermost position — with an
empty stack it bumps `base_index`, with a non-empty stack it advances only
the last entry (preserving the stack's length: no scope is ever popped) —
and a pull that resolves no current step yields `EndConversation` for the
whole conversation (marking it ended), which is exactly what happens when a
nested sequence has been run past its end. -/
theorem c4_advance_and_end :
    (∀ c : Engine.Conversation, c.indexes = [] →
      c.advance = { c with baseIndex := c.baseIndex + 1 })
    ∧ (∀ (c : Engine.Conversation) (i : Engine.StepIndex), c.indexes.getLast? = some i →
      c.advance = { c with indexes := c.indexes.dropLast ++ [i.advance] })
    ∧ (∀ c : Engine.Conversation, c.advance.indexes.length = c.indexes.length)
    ∧ (∀ (e : Engine.YarnEngine) (fuel : Nat),
      e.state.conversation.isNone = false → e.conversionEnded = false →
      e.state.getCurrentStep = .ok none →
      Engine.next (fuel + 1) e
        = .yield .EndConversation { e with conversionEnded := true }) := by
  refine ⟨?_, ?_, ?_, ?_⟩
  · intro c h
    unfold Engine.Conversation.advance
    rw [h]
  · intro c i h
    unfold Engine.Conversation.advance
    cases hi : c.indexes with
    | nil => rw [hi] at h; cases h
    | cons j rest =>
      simp only
      rw [← hi, advanceLast_eq_dropLast c.indexes i h]
  · intro c
    unfold Engine.Conversation.advance
    cases hi : c.indexes with
    | nil => simp [hi]
    | cons j rest => simp only [← hi, advanceLast_length]
  · intro e fuel h1 h2 h3
    unfold Engine.next
    simp [h1, h2, h3]

/-- C4 witness fixture: node `A` whose first step is a conditional (truthy)
containing a single dialogue line, followed by a further top-level step. -/
def c4Node : Engine.Node :=
  { title := "A", extra := [],
    steps := [.Conditional (.Term (.Boolean true)) [.Dialogue "x" []] [] [],
              .Dialogue "after" []],
    visited := false }

/-- C4 witness fixture: the state after activating `A` and pulling
`Say "x"` — inside the if-branch, one past its end. -/
def c4Engine : Engine.YarnEngine :=
  { state := { nodes := [("A", c4Node)], conversation := some ⟨"A", 0, [.If 1]⟩ },
    engineState := Engine.YarnEngine.new.engineState,
    conversionEnded := false }

/-- Witness for C4: at the concrete exhausted nested scope the pull ends the
whole conversation — the enclosing `after` step is never reached — and a
concrete `advance` bumps only the innermost index. -/
theorem c4_witness :
    Engine.next 1 c4Engine
      = .yield .EndConversation { c4Engine with conversionEnded := true }
    ∧ Engine.Conversation.advance ⟨"A", 0, [.If 0]⟩
      = (⟨"A", 0, [.If 1]⟩ : Engine.Conversation) := by
  constructor
  · exact c4_advance_and_end.2.2.2 c4Engine 0 rfl rfl rfl
  · have h := c4_advance_and_end.2.1 ⟨"A", 0, [.If 0]⟩ (.If 0) rfl
    simpa using h

/-- Claim C7: pulling at a `Dialogue` step with a non-empty choice list
yields `Choose(text, choice texts)` and returns the engine unchanged, for
any amount of fuel — so repeated pulls without an intervening `choose`
return the identical event and state (idempotence). -/
theorem c7_choose_idempotent (e : Engine.YarnEngine) (fuel : Nat)
    (t : String) (cs : List Engine.Choice)
    (h1 : e.state.conversation.isNone = false)
    (h2 : e.conversionEnded = false)
    (h3 : e.state.getCurrentStep = .ok (some (.Dialogue t cs)))
    (h4 : cs ≠ []) :
    Engine.next (fuel + 1) e
      = .yield (.Choose t (cs.map Engine.Choice.text)) e := by
  have hcs : cs.isEmpty = false := by
    cases cs with
    | nil => exact absurd rfl h4
    | cons a l => rfl
  unfold Engine.next
  simp [h1, h2, h3, hcs]

/-- C7 witness fixture: node `Start` with a dialogue line and two external
choices, activated. -/
def c7Node : Engine.Node :=
  { title := "Start", extra := [],
    steps := [.Dialogue "Hi" [.mk "go1" (.External "End1"), .mk "go2" (.External "End2")]],
    visited := false }

/-- C7 witness fixture: the activated engine at the decision point. -/
def c7Engine : Engine.YarnEngine :=
  { state := { nodes := [("Start", c7Node)], conversation := some ⟨"Start", 0, []⟩ },
    engineState := Engine.YarnEngine.new.engineState,
    conversionEnded := false }

/-- Witness for C7: the concrete decision point re-yields the same `Choose`
event with the state unchanged. -/
theorem c7_witness :
    Engine.next 1 c7Engine = .yield (.Choose "Hi" ["go1", "go2"]) c7Engine := by
  have h := c7_choose_idempotent c7Engine 0 "Hi"
    [.mk "go1" (.External "End1"), .mk "go2" (.External "End2")] rfl rfl rfl (by simp)
  simpa using h

/-- Claim C5: dispatch at a `Conditional` step.  When the primary condition
evaluates truthy the engine pushes `If(0)`; when it is falsy it pushes
`ElseIf(j, 0)` for the first truthy else-if `j`, or `Else(0)` when none is
truthy.  In each case exactly one entry is pushed and no event is emitted —
the pull loop continues internally on the updated state.  The last two
conjuncts pin down "first truthy": the selected index is in range with a
truthy condition, and every earlier else-if evaluated falsy. -/
theorem c5_conditional_dispatch (e : Engine.YarnEngine) (fuel : Nat)
    (cond : Engine.Expr) (ifS : List Engine.Step)
    (elseIfs : List (Engine.Expr × List Engine.Step)) (elseS : List Engine.Step)
    (h1 : e.state.conversation.isNone = false)
    (h2 : e.conversionEnded = false)
    (h3 : e.state.getCurrentStep = .ok (some (.Conditional cond ifS elseIfs elseS))) :
    (∀ v, Engine.evaluate e.engineState e.state.nodes cond = .ok v →
      Engine.asBool v = true →
      Engine.next (fuel + 1) e
        = Engine.next fuel { e with state := e.state.pushStep (.If 0) })
    ∧ (∀ v j, Engine.evaluate e.engineState e.state.nodes cond = .ok v →
      Engine.asBool v = false →
      Engine.selectElseIf e.engineState e.state.nodes elseIfs = .ok (some j) →
      Engine.next (fuel + 1) e
        = Engine.next fuel { e with state := e.state.pushStep (.ElseIf j 0) })
    ∧ (∀ v, Engine.evaluate e.engineState e.state.nodes cond = .ok v →
      Engine.asBool v = false →
      Engine.selectElseIf e.engineState e.state.nodes elseIfs = .ok none →
      Engine.next (fuel + 1) e
        = Engine.next fuel { e with state := e.state.pushStep (.Else 0) })
    ∧ (∀ j, Engine.selectElseIf e.engineState e.state.nodes elseIfs = .ok (some j) →
      j < elseIfs.length
      ∧ (∃ p, elseIfs[j]? = some p
          ∧ ∃ v, Engine.evaluate e.engineState e.state.nodes p.1 = .ok v
              ∧ Engine.asBool v = true)
      ∧ ∀ k, k < j →
          ∃ p, elseIfs[k]? = some p
            ∧ ∃ v, Engine.evaluate e.engineState e.state.nodes p.1 = .ok v
                ∧ Engine.asBool v = false) := by
  refine ⟨?_, ?_, ?_, ?_⟩
  · intro v hv hb
    conv_lhs => unfold Engine.next
    simp [h1, h2, h3, hv, hb]
  · intro v j hv hb hs
    conv_lhs => unfold Engine.next
    simp [h1, h2, h3, hv, hb, hs]
  · intro v hv hb hs
    conv_lhs => unfold Engine.next
    simp [h1, h2, h3, hv, hb, hs]
  · intro j hs
    refine ⟨Engine.selectElseIf_lt _ _ _ _ hs, Engine.selectElseIf_some_spec _ _ _ _ hs,
      fun k hk => Engine.selectElseIf_some_before _ _ _ _ _ hs hk⟩

/-- C5 witness fixture: `if false … elseif true … else …`. -/
def c5Node : Engine.Node :=
  { title := "A", extra := [],
    steps := [.Conditional (.Term (.Boolean false)) [.Dialogue "a" []]
                [(.Term (.Boolean true), [.Dialogue "b" []])] [.Dialogue "c" []]],
    visited := false }

/-- C5 witness fixture: the activated engine at the conditional. -/
def c5Engine : Engine.YarnEngine :=
  { state := { nodes := [("A", c5Node)], conversation := some ⟨"A", 0, []⟩ },
    engineState := Engine.YarnEngine.new.engineState,
    conversionEnded := false }

/-- Witness for C5: at `if false / elseif true / else` the engine pushes
exactly `ElseIf(0, 0)` and continues internally. -/
theorem c5_witness :
    Engine.next 2 c5Engine
      = Engine.next 1 { c5Engine with state := c5Engine.state.pushStep (.ElseIf 0 0) } := by
  exact (c5_conditional_dispatch c5Engine 1 (.Term (.Boolean false)) [.Dialogue "a" []]
    [(.Term (.Boolean true), [.Dialogue "b" []])] [.Dialogue "c" []]
    rfl rfl rfl).2.1 (.Boolean false) 0 rfl rfl rfl

/-- Claim C2 (amended): `choose` never returns the typed error its
`Result<(), ()>` signature advertises.  When the current step resolves to
`None` it silently succeeds (`Ok(())`, state unchanged); when
`get_current_step` panics (no active conversation, missing node, malformed
stack) the panic propagates; a choice index out of range of a `Dialogue`'s
choices (including an empty choice list) panics on the slice index; and a
non-`Dialogue` current step hits `unreachable!()`. -/
theorem c2_amended (e : Engine.YarnEngine) (i : Nat) :
    (Engine.YarnEngine.choose e i ≠ .err)
    ∧ (e.state.getCurrentStep = .ok none → Engine.YarnEngine.choose e i = .ok e)
    ∧ (∀ k, e.state.getCurrentStep = .error k →
        Engine.YarnEngine.choose e i = .panicked k)
    ∧ (∀ t cs, e.state.getCurrentStep = .ok (some (.Dialogue t cs)) →
        cs.length ≤ i → Engine.YarnEngine.choose e i = .panicked .indexOutOfBounds)
    ∧ (∀ st, e.state.getCurrentStep = .ok (some st) →
        (∀ t cs, st ≠ .Dialogue t cs) →
        Engine.YarnEngine.choose e i = .panicked .unreachableCode) := by
  refine ⟨?_, ?_, ?_, ?_, ?_⟩
  · unfold Engine.YarnEngine.choose
    split
    · simp
    · split
      · simp
      · split <;> simp
    · simp
    · simp
  · intro h
    unfold Engine.YarnEngine.choose
    rw [h]
  · intro k h
    unfold Engine.YarnEngine.choose
    rw [h]
  · intro t cs h hlen
    unfold Engine.YarnEngine.choose
    rw [h]
    have : cs[i]? = none := List.getElem?_eq_none hlen
    simp [this]
  · intro st h hne
    unfold Engine.YarnEngine.choose
    rw [h]
    cases st with
    | Dialogue t cs => exact absurd rfl (hne t cs)
    | Command c => rfl
    | Assign n ex => rfl
    | Conditional a b c d => rfl
    | Jump n => rfl

/-- Witness for C2 (amended): at a concrete decision point (two choices) the
out-of-range index 5 panics on the slice access. -/
theorem c2_amended_witness :
    Engine.YarnEngine.choose c7Engine 5 = .panicked .indexOutOfBounds := by
  exact (c2_amended c7Engine 5).2.2.2.1 "Hi"
    [.mk "go1" (.External "End1"), .mk "go2" (.External "End2")] rfl (by simp)

/-- C10 counterexample fixture: version 1 of node `A` — a truthy conditional
containing one dialogue line. -/
def c10NodeV1 : Engine.Node :=
  { title := "A", extra := [],
    steps := [.Conditional (.Term (.Boolean true)) [.Dialogue "x" []] [] []],
    visited := false }

/-- C10 counterexample fixture: version 2 of node `A` — a single plain
dialogue step (no conditional). -/
def c10NodeV2 : Engine.Node :=
  { title := "A", extra := [], steps := [.Dialogue "y" []], visited := false }

/-- C10 counterexample fixture: load v1, activate `A`. -/
def c10E2 : Engine.YarnEngine :=
  (Engine.YarnEngine.new.loadNodes [c10NodeV1]).activate "A"

/-- C10 counterexample fixture: the state after pulling `Say "x"` — inside
the conditional's if-branch, stack `[If 1]`. -/
def c10E3 : Engine.YarnEngine :=
  { state := { nodes := [("A", c10NodeV1)], conversation := some ⟨"A", 0, [.If 1]⟩ },
    engineState := Engine.YarnEngine.new.engineState,
    conversionEnded := false }

/-- C10 counterexample fixture: reload node `A` as v2 while the conversation
inside v1's conditional is still active. -/
def c10Bad : Engine.YarnEngine := Engine.YarnEngine.loadNodes c10E3 [c10NodeV2]

/-- Claim C10 counterexample: a state reachable through the public API —
load v1 of `A`, activate, pull once (entering the conditional's if-branch),
then load v2 of `A` mid-conversation — whose scope stack no longer matches
the steps: `get_current_step` hits its `unreachable!()` arm (`If` entry
against a `Dialogue` step).  So the claimed invariant fails when `load` is
allowed while a conversation is active. -/
theorem c10_counterexample :
    Engine.ReachAPI c10Bad
    ∧ c10Bad.state.getCurrentStep = .error .unreachableCode := by
  constructor
  · exact Engine.ReachAPI.load [c10NodeV2]
      (Engine.ReachAPI.next 2 (.Say "x")
        (Engine.ReachAPI.activate "A"
          (Engine.ReachAPI.load [c10NodeV1] Engine.ReachAPI.new))
        rfl)
  · rfl

/-- Claim C10 (amended): the scope-stack well-formedness invariant holds in
every state reachable when `load` is only performed while no conversation is
active (all other operations unrestricted): whenever a conversation is
active and its node is in the registry, the stack walk of
`get_current_step` dereferences every entry successfully — it reaches no
`unreachable!()` arm and no out-of-bounds index. -/
theorem c10_amended (e : Engine.YarnEngine) (h : Engine.ReachSafe e) :
    ∀ conv nd, e.state.conversation = some conv →
      Engine.alookup e.state.nodes conv.node = some nd →
      ∃ r, Engine.walk nd.steps conv.baseIndex conv.indexes = .ok r := by
  intro conv nd hc hn
  exact Engine.walkOK_sound _ _ _ (Engine.reachSafe_inv h conv hc nd hn)

/-- C10 witness fixture: the engine after a conversation that has entered a
nested scope, reached without any mid-conversation load: load v1 of `A`,
activate, pull `Say "x"`. -/
def c10Safe : Engine.YarnEngine := c10E3

/-- Witness for C10 (amended): at the concrete safely-reached state (stack
`[If 1]` inside v1's conditional) the walk succeeds. -/
theorem c10_witness :
    ∃ r, Engine.walk c10NodeV1.steps 0 [.If 1] = .ok r := by
  have h := c10_amended c10Safe
    (Engine.ReachSafe.next 2 (.Say "x")
      (Engine.ReachSafe.activate "A"
        (Engine.ReachSafe.load [c10NodeV1] Engine.ReachSafe.new rfl))
      rfl)
    ⟨"A", 0, [.If 1]⟩ c10NodeV1 rfl rfl
  simpa using h
